import Mathlib

/-!
Shallow embedding of `pvrcnn/detector/backbone.py` (a sparse 3D CNN backbone,
a modified SpMiddleFHD).  Float tensors are modelled as lists of rationals,
integer tensors as lists of integers.  Randomness (`torch.randint`) is
modelled by an explicit oracle function supplying a stream of naturals; the
drawn index is the oracle value reduced modulo the population size, so every
oracle yields an in-range index, and every in-range index is reachable.
Operations that raise at runtime in torch (drawing from an empty range)
return `Option.none`.
-/

set_option autoImplicit false

namespace PVRCNN

universe u v

/-- Detector configuration fields used by the backbone
(`cfg.C_IN`, `cfg.VOXEL_SIZE`, `cfg.GRID_BOUNDS`, `cfg.STRIDES`). -/
structure Config where
  C_IN : ℕ
  VOXEL_SIZE : List ℚ
  GRID_BOUNDS : List ℚ
  STRIDES : List ℚ
deriving DecidableEq

/-- Model of `spconv.SparseConvTensor`: paired feature rows and integer index rows
(`indices` rows are `[batch, i, j, k]`), plus the dense grid shape and the
batch size. -/
structure SparseConvTensor where
  features : List (List ℚ)
  indices : List (List ℤ)
  spatial_shape : List ℕ
  batch_size : ℕ
deriving DecidableEq

/-- State of an `nn.BatchNorm1d` module: the constructor arguments together
with the learnable affine parameters and their `requires_grad` flags. -/
structure BatchNorm1d where
  num_features : ℕ
  eps : ℚ
  momentum : ℚ
  weight : List ℚ
  bias : List ℚ
  weight_requires_grad : Bool
  bias_requires_grad : Bool
deriving DecidableEq

/-- Model of `nn.BatchNorm1d(C, eps=e, momentum=m)`: affine parameters are created as
`weight = 1`, `bias = 0`, and freshly created parameters have
`requires_grad = True` (torch default). -/
def nnBatchNorm1d (C : ℕ) (eps momentum : ℚ) : BatchNorm1d :=
  { num_features := C
    eps := eps
    momentum := momentum
    weight := List.replicate C 1
    bias := List.replicate C 0
    weight_requires_grad := true
    bias_requires_grad := true }

/-- Model of `build_batchnorm`: `nn.BatchNorm1d(C_in, eps=1e-3, momentum=0.01)`,
then the loop `for param in layer.parameters(): param.requires_grad = True`
sets the flag of each parameter. -/
def build_batchnorm (C_in : ℕ) : BatchNorm1d :=
  let layer := nnBatchNorm1d C_in (1 / 1000) (1 / 100)
  { layer with weight_requires_grad := true, bias_requires_grad := true }

/-- A python convolution size argument: a scalar or a 3-tuple. -/
inductive Size3 where
  | scalar (n : ℤ)
  | triple (a b c : ℤ)
deriving DecidableEq

/-- The `indice_key` strings used by the backbone. -/
inductive IndiceKey where
  | subm0
  | subm1
  | subm2
  | subm3
deriving DecidableEq

/-- The torch / spconv modules that can occur in this network.  `nn.Conv2d`
is included because `init_weights` tests for it with `isinstance`; the
constructed backbone never contains one.  Convolution weights are carried
abstractly as a list of rationals. -/
inductive NNModule where
  | subMConv3d (C_in C_out : ℕ) (kernel_size stride padding : Size3)
      (indice_key : IndiceKey) (bias : Bool) (weight : List ℚ)
  | sparseConv3d (C_in C_out : ℕ) (kernel_size stride padding : Size3)
      (bias : Bool) (weight : List ℚ)
  | conv2d (weight : List ℚ) (bias : List ℚ)
  | batchNorm1d (bn : BatchNorm1d)
  | reLU
deriving DecidableEq

/-- Model of `make_subm_layer(C_in, C_out, *args, **kwargs)`: a `SparseSequential` of
`SubMConv3d(C_in, C_out, 3, *args, **kwargs)`, `build_batchnorm(C_out)` and
`nn.ReLU()`.  All call sites pass one extra positional argument (which lands
in the `stride` slot of `SubMConv3d`), an `indice_key` and `bias`; the
`padding` keeps its default `0`. -/
def make_subm_layer (C_in C_out : ℕ) (stride : Size3) (indice_key : IndiceKey)
    (bias : Bool) (weight : List ℚ) : List NNModule :=
  [NNModule.subMConv3d C_in C_out (Size3.scalar 3) stride (Size3.scalar 0)
      indice_key bias weight,
   NNModule.batchNorm1d (build_batchnorm C_out),
   NNModule.reLU]

/-- Model of `make_sparse_conv_layer(C_in, C_out, *args, **kwargs)`: a
`SparseSequential` of `SparseConv3d(C_in, C_out, *args, **kwargs)`,
`build_batchnorm(C_out)` and `nn.ReLU()`. -/
def make_sparse_conv_layer (C_in C_out : ℕ) (kernel_size stride padding : Size3)
    (bias : Bool) (weight : List ℚ) : List NNModule :=
  [NNModule.sparseConv3d C_in C_out kernel_size stride padding bias weight,
   NNModule.batchNorm1d (build_batchnorm C_out),
   NNModule.reLU]

/-- Model of `SparseCNN.__init__`, block 1:
two submanifold layers `C_IN -> 16 -> 16` with key `subm0`, then a strided
sparse convolution `16 -> 32` (kernel 3, stride 2, padding 1), all bias-free.
The function `w` assigns each convolution its (abstract) initial weight. -/
def SparseCNN.block1 (c_in : ℕ) (w : ℕ → List ℚ) : List NNModule :=
  make_subm_layer c_in 16 (Size3.scalar 3) IndiceKey.subm0 false (w 0) ++
  make_subm_layer 16 16 (Size3.scalar 3) IndiceKey.subm0 false (w 1) ++
  make_sparse_conv_layer 16 32 (Size3.scalar 3) (Size3.scalar 2)
    (Size3.scalar 1) false (w 2)

/-- Model of `SparseCNN.__init__`, block 2: two submanifold layers `32 -> 32 -> 32`
with key `subm1`, then a strided sparse convolution `32 -> 64`
(kernel 3, stride 2, padding 1), all bias-free. -/
def SparseCNN.block2 (w : ℕ → List ℚ) : List NNModule :=
  make_subm_layer 32 32 (Size3.scalar 3) IndiceKey.subm1 false (w 3) ++
  make_subm_layer 32 32 (Size3.scalar 3) IndiceKey.subm1 false (w 4) ++
  make_sparse_conv_layer 32 64 (Size3.scalar 3) (Size3.scalar 2)
    (Size3.scalar 1) false (w 5)

/-- Model of `SparseCNN.__init__`, block 3: three submanifold layers `64 -> 64`
with key `subm2`, then a strided sparse convolution `64 -> 64`
(kernel 3, stride 2, padding [0, 1, 1]), all bias-free. -/
def SparseCNN.block3 (w : ℕ → List ℚ) : List NNModule :=
  make_subm_layer 64 64 (Size3.scalar 3) IndiceKey.subm2 false (w 6) ++
  make_subm_layer 64 64 (Size3.scalar 3) IndiceKey.subm2 false (w 7) ++
  make_subm_layer 64 64 (Size3.scalar 3) IndiceKey.subm2 false (w 8) ++
  make_sparse_conv_layer 64 64 (Size3.scalar 3) (Size3.scalar 2)
    (Size3.triple 0 1 1) false (w 9)

/-- Model of `SparseCNN.__init__`, block 4: three submanifold layers `64 -> 64`
with key `subm3`, then a strided sparse convolution `64 -> 64`
(kernel (3,1,1), stride (2,1,1), default padding 0), all bias-free. -/
def SparseCNN.block4 (w : ℕ → List ℚ) : List NNModule :=
  make_subm_layer 64 64 (Size3.scalar 3) IndiceKey.subm3 false (w 10) ++
  make_subm_layer 64 64 (Size3.scalar 3) IndiceKey.subm3 false (w 11) ++
  make_subm_layer 64 64 (Size3.scalar 3) IndiceKey.subm3 false (w 12) ++
  make_sparse_conv_layer 64 64 (Size3.triple 3 1 1) (Size3.triple 2 1 1)
    (Size3.scalar 0) false (w 13)

/-- The four blocks of the backbone, in order. -/
def SparseCNN.blocks (c_in : ℕ) (w : ℕ → List ℚ) : List (List NNModule) :=
  [SparseCNN.block1 c_in w, SparseCNN.block2 w, SparseCNN.block3 w,
   SparseCNN.block4 w]

/-- Model of `self.modules()` flattened over the four blocks: the leaf modules of the
backbone in definition order (container modules match neither `isinstance`
test in `init_weights` and are omitted). -/
def SparseCNN.modules (c_in : ℕ) (w : ℕ → List ℚ) : List NNModule :=
  (SparseCNN.blocks c_in w).flatten

/-- Model of `SparseCNN.batchnorm_init`: `nn.init.constant_(module.weight, 1)` and,
since a `BatchNorm1d` has a bias, `maybe_bias_init(module, 0)` sets the bias
to `0`. -/
def SparseCNN.batchnorm_init (bn : BatchNorm1d) : BatchNorm1d :=
  { bn with
    weight := List.replicate bn.num_features 1
    bias := List.replicate bn.num_features 0 }

/-- Model of `SparseCNN.init_weights`: for each module, `kaiming_init` when it is an
`nn.Conv2d`, `batchnorm_init` when it is a `_BatchNorm`, nothing otherwise.
The random Kaiming draw is abstracted as the oracle `kaiming`. -/
def SparseCNN.init_weights (kaiming : NNModule → NNModule)
    (ms : List NNModule) : List NNModule :=
  ms.map (fun m =>
    match m with
    | NNModule.conv2d weight bias => kaiming (NNModule.conv2d weight bias)
    | NNModule.batchNorm1d bn =>
        NNModule.batchNorm1d (SparseCNN.batchnorm_init bn)
    | m => m)

/-- Recognizer for the `isinstance(m, nn.Conv2d)` test of `init_weights`. -/
def NNModule.isConv2d : NNModule → Bool
  | NNModule.conv2d _ _ => true
  | _ => false

/-- Model of `random_choice(x, n)`: draw `n` indices uniformly from `[0, len x)` with
`torch.randint` and index `x` with them.  `torch.randint` raises when the
population is empty and at least one draw is requested (`from = to = 0`);
this is the `none` case.  The oracle `pick` supplies the random stream. -/
def random_choice {α : Type u} [Inhabited α] (x : List α) (n : ℕ)
    (pick : ℕ → ℕ) : Option (List α) :=
  if x.length = 0 ∧ n ≠ 0 then none
  else some ((List.range n).map (fun i => x.getD (pick i % x.length) default))

/-- Left `searchsorted` of a single value `b` into the row `l`, under the
torchsearchsorted requirement that `l` be sorted: the insertion position is
the number of entries strictly below `b`. -/
def countLt (l : List ℤ) (b : ℤ) : ℕ :=
  l.countP (fun v => decide (v < b))

/-- Number of entries of `l` equal to `b`. -/
def countEq (l : List ℤ) (b : ℤ) : ℕ :=
  l.countP (fun v => decide (v = b))

/-- Model of `start_index` of `SparseCNN.compute_pad_amounts`:
`searchsorted(batch_index, arange(batch_size + 1))` on the sorted row
`batch_index`. -/
def start_index (batch_index : List ℤ) (batch_size : ℕ) : List ℕ :=
  (List.range (batch_size + 1)).map (fun b : ℕ => countLt batch_index (b : ℤ))

/-- Model of `batch_count = start_index[1:] - start_index[:-1]`. -/
def batch_count (batch_index : List ℤ) (batch_size : ℕ) : List ℕ :=
  List.zipWith (fun a b => a - b)
    ((start_index batch_index batch_size).drop 1)
    (start_index batch_index batch_size)

/-- Model of `SparseCNN.compute_pad_amounts`: the per-batch counts and
`pad = batch_count.max() - batch_count`.  (`batch_size >= 1` at every call,
so the `max` is over a nonempty tensor.) -/
def SparseCNN.compute_pad_amounts (batch_index : List ℤ) (batch_size : ℕ) :
    List ℕ × List ℕ :=
  let bc := batch_count batch_index batch_size
  let M := bc.foldr max 0
  (bc, bc.map (fun c => M - c))

/-- Model of `x.split(sizes)`: consecutive chunks of the stated sizes.  (torch raises
when the sizes do not sum to `len x`; at every call below they do.) -/
def splitByCounts {α : Type u} (x : List α) : List ℕ → List (List α)
  | [] => []
  | n :: ns => x.take n :: splitByCounts (x.drop n) ns

/-- Model of `SparseCNN.pad_batch`: for `batch_size == 1`, `x.unsqueeze(0)`;
otherwise split `x` by the per-batch counts, draw each chunk's pad from the
chunk itself with `random_choice`, concatenate, and stack.  The python `zip`
runs over the equal-length (length `batch_size`) lists `chunks` and `pad`,
i.e. over positions `0 .. batch_size - 1`; `pick b` is the random stream of
chunk `b`. -/
def SparseCNN.pad_batch {α : Type u} [Inhabited α] (x : List α)
    (batch_index : List ℤ) (batch_size : ℕ) (pick : ℕ → ℕ → ℕ) :
    Option (List (List α)) :=
  if batch_size = 1 then some [x]
  else
    let bc := (SparseCNN.compute_pad_amounts batch_index batch_size).1
    let pad := (SparseCNN.compute_pad_amounts batch_index batch_size).2
    let chunks := splitByCounts x bc
    (List.range batch_size).mapM (fun b =>
      (random_choice (chunks.getD b []) (pad.getD b 0) (pick b)).map
        (fun p => chunks.getD b [] ++ p))

/-- Model of `SparseCNN.to_global(stride, volume)`: flip each index row
(`ijk -> kji`, with the batch column moving from front to back), scale the
first three flipped components by `base_voxel_size * stride`, add the
`voxel_offset` (`cfg.GRID_BOUNDS[:3]`), and pad both the coordinates and the
features into dense minibatches using the last column of the flipped index
as batch index.  `pickX` / `pickF` are the random streams of the two
`pad_batch` calls. -/
def SparseCNN.to_global (cfg : Config) (stride : ℚ)
    (volume : SparseConvTensor) (pickX pickF : ℕ → ℕ → ℕ) :
    Option (List (List (List ℚ)) × List (List (List ℚ))) :=
  let index := volume.indices.map List.reverse
  let voxel_size := cfg.VOXEL_SIZE.map (fun v => v * stride)
  let xyz0 := index.map (fun r => (r.take 3).map (fun a : ℤ => (a : ℚ)))
  let xyz1 := xyz0.map (fun r => List.zipWith (fun a v => a * v) r voxel_size)
  let xyz2 := xyz1.map
    (fun r => List.zipWith (fun a o => a + o) r (cfg.GRID_BOUNDS.take 3))
  let bidx := index.map (fun r => r.getLastD 0)
  match SparseCNN.pad_batch xyz2 bidx volume.batch_size pickX,
      SparseCNN.pad_batch volume.features bidx volume.batch_size pickF with
  | some xyz, some feature => some (xyz, feature)
  | _, _ => none

/-- Model of `SparseCNN.forward(features, coordinates, batch_size)`: build the input
sparse tensor `x0` on the grid, run the four blocks, convert
`(x0, x1, x2, x3)` with `to_global` zipped against `cfg.STRIDES`, and return
the list together with the raw block-4 output `x4`.  The block computations
(library sparse convolutions) are abstracted as `b1 .. b4`; `po i` is the
pair of random streams of the `i`-th `to_global` call. -/
def SparseCNN.forward (cfg : Config) (grid_shape : List ℕ)
    (b1 b2 b3 b4 : SparseConvTensor → SparseConvTensor)
    (po : ℕ → ((ℕ → ℕ → ℕ) × (ℕ → ℕ → ℕ)))
    (features : List (List ℚ)) (coordinates : List (List ℤ))
    (batch_size : ℕ) :
    Option (List (List (List (List ℚ)) × List (List (List ℚ)))) ×
      SparseConvTensor :=
  let x0 : SparseConvTensor :=
    ⟨features, coordinates, grid_shape, batch_size⟩
  let x1 := b1 x0
  let x2 := b2 x1
  let x3 := b3 x2
  let x4 := b4 x3
  let args := List.zip cfg.STRIDES [x0, x1, x2, x3]
  let x := args.enum.mapM
    (fun p => SparseCNN.to_global cfg p.2.1 p.2.2 (po p.1).1 (po p.1).2)
  (x, x4)

/-- Model of `VoxelFeatureExtractor.forward(feature, occupancy)` for a feature tensor
of shape `(N, K, C)`: `feature.sum(1) / occupancy.view(-1, 1)`.  The sum
over the `K` axis starts from the zero vector of length `C` (the length of
the last tensor axis). -/
def VoxelFeatureExtractor.forward (C : ℕ) (feature : List (List (List ℚ)))
    (occupancy : List ℚ) : List (List ℚ) :=
  List.zipWith
    (fun rows denom =>
      (rows.foldl (fun a r => List.zipWith (fun p q => p + q) a r)
          (List.replicate C 0)).map (fun s => s / denom))
    feature occupancy

/-- Runtime action of one module on a sparse tensor, with the library
convolution kernels abstracted as oracles.
Modelled from the spec: a submanifold convolution preserves the input's
active-site pattern, so `subMConv3d` replaces the features (through the
oracle `subF`) and keeps the indices; a strided `sparseConv3d` may change
both (oracle `convF`); `BatchNorm1d` (oracle `bnF`) and `ReLU`
(elementwise `max 0`) act on features only. -/
def runModule (subF : NNModule → SparseConvTensor → List (List ℚ))
    (convF : NNModule → SparseConvTensor → SparseConvTensor)
    (bnF : BatchNorm1d → List (List ℚ) → List (List ℚ)) :
    NNModule → SparseConvTensor → SparseConvTensor
  | m@(NNModule.subMConv3d ..), t => { t with features := subF m t }
  | m@(NNModule.sparseConv3d ..), t => convF m t
  | NNModule.batchNorm1d bn, t => { t with features := bnF bn t.features }
  | NNModule.reLU, t =>
      { t with features := t.features.map (fun r => r.map (fun a => max a 0)) }
  | NNModule.conv2d .., t => t

/-- Action of a `SparseSequential` list of modules, first to last. -/
def runModules (subF : NNModule → SparseConvTensor → List (List ℚ))
    (convF : NNModule → SparseConvTensor → SparseConvTensor)
    (bnF : BatchNorm1d → List (List ℚ) → List (List ℚ))
    (ms : List NNModule) (t : SparseConvTensor) : SparseConvTensor :=
  ms.foldl (fun s m => runModule subF convF bnF m s) t

/-- The batch-normalization modules of a module list, in order. -/
def bnLayers (ms : List NNModule) : List BatchNorm1d :=
  ms.filterMap (fun m =>
    match m with
    | NNModule.batchNorm1d bn => some bn
    | _ => none)

/-- Specification helper: the row block `pad_batch` produces for batch `b`
when every chunk is nonempty — the chunk itself followed by the oversampled
pad rows. -/
def paddedChunk {α : Type u} [Inhabited α] (x : List α) (bi : List ℤ)
    (bs : ℕ) (pick : ℕ → ℕ → ℕ) (b : ℕ) : List α :=
  (splitByCounts x (batch_count bi bs)).getD b [] ++
  (List.range ((batch_count bi bs).foldr max 0 -
      (batch_count bi bs).getD b 0)).map
    (fun i => ((splitByCounts x (batch_count bi bs)).getD b []).getD
      (pick b i % ((splitByCounts x (batch_count bi bs)).getD b []).length)
      default)

/-! ## Helper lemmas -/

theorem countLt_succ (l : List ℤ) (b : ℤ) :
    countLt l (b + 1) = countLt l b + countEq l b := by
  induction l with
  | nil => rfl
  | cons v l ih =>
    simp only [countLt, countEq, List.countP_cons] at *
    by_cases h1 : v < b
    · simp only [decide_eq_true_eq]
      rw [if_pos (by omega : v < b + 1), if_pos h1, if_neg (by omega : ¬v = b)]
      omega
    · by_cases h2 : v = b
      · simp only [decide_eq_true_eq]
        rw [if_pos (by omega : v < b + 1), if_neg h1, if_pos h2]
        omega
      · simp only [decide_eq_true_eq]
        rw [if_neg (by omega : ¬v < b + 1), if_neg h1, if_neg h2]
        omega

theorem countLt_add_countEq_le (l : List ℤ) (b : ℤ) :
    countLt l b + countEq l b ≤ l.length := by
  rw [← countLt_succ]
  exact List.countP_le_length _

theorem start_index_length (bi : List ℤ) (bs : ℕ) :
    (start_index bi bs).length = bs + 1 := by
  simp only [start_index, List.length_map, List.length_range]

theorem start_index_getElem (bi : List ℤ) (bs : ℕ) (j : ℕ)
    (h : j < (start_index bi bs).length) :
    (start_index bi bs)[j] = countLt bi (j : ℤ) := by
  simp only [start_index, List.getElem_map, List.getElem_range]

theorem batch_count_length (bi : List ℤ) (bs : ℕ) :
    (batch_count bi bs).length = bs := by
  rw [batch_count, List.length_zipWith, List.length_drop, start_index_length]
  omega

theorem batch_count_getD (bi : List ℤ) (bs : ℕ) (b : ℕ) (hb : b < bs) :
    (batch_count bi bs).getD b 0 = countEq bi (b : ℤ) := by
  have hlen : b < (batch_count bi bs).length := by
    rw [batch_count_length]; exact hb
  rw [List.getD_eq_getElem _ _ hlen]
  unfold batch_count
  rw [List.getElem_zipWith, List.getElem_drop, start_index_getElem,
    start_index_getElem]
  have h1 : ((1 + b : ℕ) : ℤ) = (b : ℤ) + 1 := by push_cast; ring
  rw [h1, countLt_succ]
  omega

theorem batch_count_sum_take (bi : List ℤ) (bs : ℕ)
    (hnn : ∀ v ∈ bi, 0 ≤ v) (b : ℕ) (hb : b ≤ bs) :
    ((batch_count bi bs).take b).sum = countLt bi (b : ℤ) := by
  induction b with
  | zero =>
    simp only [List.take_zero, List.sum_nil, Nat.cast_zero]
    symm
    rw [countLt, List.countP_eq_zero]
    intro a ha
    have := hnn a ha
    simp only [decide_eq_true_eq]
    omega
  | succ b ih =>
    have hb' : b < bs := by omega
    have hlen : b < (batch_count bi bs).length := by
      rw [batch_count_length]; exact hb'
    rw [List.sum_take_succ _ _ hlen, ih (by omega),
      ← List.getD_eq_getElem _ 0 hlen, batch_count_getD bi bs b hb']
    have h1 : ((b + 1 : ℕ) : ℤ) = (b : ℤ) + 1 := by push_cast; ring
    rw [h1, countLt_succ]

theorem splitByCounts_length {α : Type u} (x : List α) (cs : List ℕ) :
    (splitByCounts x cs).length = cs.length := by
  induction cs generalizing x with
  | nil => rfl
  | cons n ns ih => simp [splitByCounts, ih]

theorem splitByCounts_getD {α : Type u} (x : List α) (cs : List ℕ) (i : ℕ)
    (h : i < cs.length) :
    (splitByCounts x cs).getD i [] =
      (x.drop ((cs.take i).sum)).take (cs.getD i 0) := by
  induction cs generalizing x i with
  | nil => simp at h
  | cons n ns ih =>
    cases i with
    | zero => simp [splitByCounts]
    | succ i =>
      have h' : i < ns.length := by simpa using h
      simp only [splitByCounts, List.getD_cons_succ, List.take_succ_cons,
        List.sum_cons]
      rw [ih _ i h', List.drop_drop]

theorem sorted_chunk_eq_filter {α : Type u} (x : List α) (bi : List ℤ)
    (b : ℤ) (hs : bi.Pairwise (· ≤ ·)) (hl : bi.length = x.length) :
    ((x.zip bi).filter (fun p => decide (p.2 = b))).map Prod.fst =
      (x.drop (countLt bi b)).take (countEq bi b) := by
  induction bi generalizing x with
  | nil =>
    cases x with
    | nil => rfl
    | cons a x => simp at hl
  | cons v bi ih =>
    cases x with
    | nil => simp at hl
    | cons a x =>
      obtain ⟨hv, hs'⟩ := List.pairwise_cons.mp hs
      have hl' : bi.length = x.length := by simpa using hl
      rcases lt_trichotomy v b with h | h | h
      · have hvb : ¬v = b := by omega
        have hcLt : countLt (v :: bi) b = countLt bi b + 1 := by
          rw [countLt, List.countP_cons, countLt]
          simp [h]
        have hcEq : countEq (v :: bi) b = countEq bi b := by
          rw [countEq, List.countP_cons, countEq]
          simp [hvb]
        rw [hcLt, hcEq, List.zip_cons_cons,
          List.filter_cons_of_neg (by simpa using hvb), List.drop_succ_cons]
        exact ih x hs' hl'
      · subst h
        have hcLt0 : countLt bi v = 0 := by
          rw [countLt, List.countP_eq_zero]
          intro u hu
          have hvu := hv u hu
          simp only [decide_eq_true_eq]
          omega
        have hcLt : countLt (v :: bi) v = 0 := by
          rw [countLt, List.countP_cons]
          rw [countLt] at hcLt0
          simp [hcLt0]
        have hcEq : countEq (v :: bi) v = countEq bi v + 1 := by
          rw [countEq, List.countP_cons, countEq]
          simp
        rw [hcLt, hcEq, List.zip_cons_cons,
          List.filter_cons_of_pos (by simp), List.drop_zero,
          List.take_succ_cons, List.map_cons]
        rw [ih x hs' hl', hcLt0, List.drop_zero]
      · have hvb : ¬v = b := by omega
        have hcEq0 : countEq bi b = 0 := by
          rw [countEq, List.countP_eq_zero]
          intro u hu
          have hvu := hv u hu
          simp only [decide_eq_true_eq]
          omega
        have hcEq : countEq (v :: bi) b = 0 := by
          rw [countEq, List.countP_cons]
          rw [countEq] at hcEq0
          simp [hcEq0, hvb]
        rw [hcEq, List.take_zero]
        rw [List.map_eq_nil_iff, List.filter_eq_nil_iff]
        intro p hp
        rcases p with ⟨pa, pb⟩
        rcases List.of_mem_zip hp with ⟨-, hpb⟩
        simp only [decide_eq_true_eq]
        rcases List.mem_cons.mp hpb with rfl | hpb'
        · omega
        · have := hv pb hpb'
          omega

theorem mem_le_foldr_max (l : List ℕ) (a : ℕ) (h : a ∈ l) :
    a ≤ l.foldr max 0 := by
  induction l with
  | nil => simp at h
  | cons x l ih =>
    rcases List.mem_cons.mp h with rfl | h'
    · exact le_max_left _ _
    · exact le_trans (ih h') (le_max_right _ _)

theorem getD_mem {α : Type u} (l : List α) (i : ℕ) (d : α)
    (h : i < l.length) : l.getD i d ∈ l := by
  rw [List.getD_eq_getElem _ _ h]
  exact List.getElem_mem h

theorem random_choice_of_ne_nil {α : Type u} [Inhabited α] (x : List α)
    (n : ℕ) (pick : ℕ → ℕ) (hx : x ≠ []) :
    random_choice x n pick =
      some ((List.range n).map (fun i => x.getD (pick i % x.length) default)) := by
  rw [random_choice, if_neg]
  intro ⟨h0, _⟩
  exact hx (List.length_eq_zero.mp h0)

theorem random_choice_none {α : Type u} [Inhabited α] (n : ℕ)
    (pick : ℕ → ℕ) (hn : n ≠ 0) :
    random_choice ([] : List α) n pick = none := by
  rw [random_choice, if_pos ⟨rfl, hn⟩]

theorem mapM_option_eq_some_map {α : Type u} {β : Type v} (f : α → Option β)
    (g : α → β) (l : List α) (h : ∀ a ∈ l, f a = some (g a)) :
    l.mapM f = some (l.map g) := by
  induction l with
  | nil => rfl
  | cons a l ih =>
    rw [List.mapM_cons, h a (List.mem_cons_self a l),
      ih (fun a ha => h a (List.mem_cons_of_mem _ ha))]
    rfl

theorem mapM_option_eq_none {α : Type u} {β : Type v} (f : α → Option β)
    (l : List α) (a : α) (ha : a ∈ l) (hn : f a = none) :
    l.mapM f = none := by
  induction l with
  | nil => simp at ha
  | cons c l ih =>
    rw [List.mapM_cons]
    rcases List.mem_cons.mp ha with rfl | ha'
    · rw [hn]; rfl
    · cases hc : f c with
      | none => rfl
      | some v =>
        have hred :
            ((some v : Option β) >>= fun x =>
              List.mapM f l >>= fun xs => pure (x :: xs)) =
              (List.mapM f l >>= fun xs => pure (v :: xs)) := rfl
        rw [hred, ih ha']
        rfl

theorem compute_pad_amounts_fst (bi : List ℤ) (bs : ℕ) :
    (SparseCNN.compute_pad_amounts bi bs).1 = batch_count bi bs := rfl

theorem compute_pad_amounts_snd (bi : List ℤ) (bs : ℕ) :
    (SparseCNN.compute_pad_amounts bi bs).2 =
      (batch_count bi bs).map
        (fun c => (batch_count bi bs).foldr max 0 - c) := rfl

theorem map_sub_getD (bc : List ℕ) (M : ℕ) (b : ℕ) (hb : b < bc.length) :
    (bc.map (fun c => M - c)).getD b 0 = M - bc.getD b 0 := by
  rw [List.getD_eq_getElem _ _ (by simpa using hb), List.getElem_map,
    List.getD_eq_getElem _ _ hb]

theorem getD_replicate_zero (C c : ℕ) :
    (List.replicate C (0 : ℚ)).getD c 0 = 0 := by
  rcases Nat.lt_or_ge c C with h | h
  · rw [List.getD_eq_getElem _ _ (by simpa using h), List.getElem_replicate]
  · rw [List.getD_eq_default _ _ (by simpa using h)]

theorem foldl_zipWith_add (C : ℕ) (rows : List (List ℚ)) (acc : List ℚ)
    (hacc : acc.length = C) (hrows : ∀ r ∈ rows, r.length = C) :
    rows.foldl (fun a r => List.zipWith (fun p q => p + q) a r) acc =
      (List.range C).map
        (fun c => acc.getD c 0 + (rows.map (fun r => r.getD c 0)).sum) := by
  induction rows generalizing acc with
  | nil =>
    simp only [List.foldl_nil, List.map_nil, List.sum_nil, add_zero]
    subst hacc
    symm
    apply List.ext_getElem (by simp)
    intro i h1 h2
    rw [List.getElem_map, List.getElem_range, List.getD_eq_getElem _ _ h2]
  | cons r rows ih =>
    have hrC : r.length = C := hrows r (List.mem_cons_self _ _)
    have haccr : (List.zipWith (fun p q => p + q) acc r).length = C := by
      rw [List.length_zipWith, hacc, hrC, min_self]
    simp only [List.foldl_cons]
    rw [ih _ haccr (fun r' hr' => hrows r' (List.mem_cons_of_mem _ hr'))]
    apply List.map_congr_left
    intro c hc
    have hcC : c < C := List.mem_range.mp hc
    rw [List.map_cons, List.sum_cons]
    rw [List.getD_eq_getElem _ _ (by rw [haccr]; exact hcC),
      List.getElem_zipWith,
      ← List.getD_eq_getElem acc 0 (by rw [hacc]; exact hcC),
      ← List.getD_eq_getElem r 0 (by rw [hrC]; exact hcC)]
    ring

/-! ## Claim theorems -/

/-- C10: for `batch_size == 1`, `pad_batch` returns exactly its input with a
new leading batch axis, for every `x`, every `batch_index` and every random
stream: no split, no oversampling, no dependence on `batch_index`. -/
theorem pad_batch_single_batch {α : Type u} [Inhabited α] (x : List α)
    (batch_index : List ℤ) (pick : ℕ → ℕ → ℕ) :
    SparseCNN.pad_batch x batch_index 1 pick = some [x] := rfl

/-- C1: `to_global` reverses each index row (`ijk -> kji`), multiplies the
first three reversed components elementwise by `base_voxel_size * stride`,
adds the voxel offset (the first three `GRID_BOUNDS` values), and uses the
last column of the reversed index — the original batch column — as the batch
index for padding both coordinates and features. -/
theorem to_global_metric_conversion (v0 v1 v2 o0 o1 o2 g3 g4 g5 stride : ℚ)
    (c_in : ℕ) (strides : List ℚ) (feats : List (List ℚ))
    (rows : List (ℤ × ℤ × ℤ × ℤ)) (gs : List ℕ) (bs : ℕ)
    (pickX pickF : ℕ → ℕ → ℕ) :
    SparseCNN.to_global ⟨c_in, [v0, v1, v2], [o0, o1, o2, g3, g4, g5], strides⟩
      stride
      ⟨feats, rows.map (fun q => [q.1, q.2.1, q.2.2.1, q.2.2.2]), gs, bs⟩
      pickX pickF =
    match
      SparseCNN.pad_batch
        (rows.map (fun q =>
          [(q.2.2.2 : ℚ) * (v0 * stride) + o0,
           (q.2.2.1 : ℚ) * (v1 * stride) + o1,
           (q.2.1 : ℚ) * (v2 * stride) + o2]))
        (rows.map (fun q => q.1)) bs pickX,
      SparseCNN.pad_batch feats (rows.map (fun q => q.1)) bs pickF with
    | some xyz, some feature => some (xyz, feature)
    | _, _ => none := by
  simp only [SparseCNN.to_global, List.map_map]
  rfl

/-- C3: `forward` builds `x0` from the inputs, runs the four blocks, and
returns the `to_global` conversions of `x0 .. x3` paired with `cfg.STRIDES`
in order, together with the raw block-4 output as a separate, unconverted
sparse tensor — five feature volumes in total. -/
theorem forward_multiscale_structure (c_in : ℕ) (vs gb : List ℚ)
    (s0 s1 s2 s3 : ℚ) (grid_shape : List ℕ)
    (b1 b2 b3 b4 : SparseConvTensor → SparseConvTensor)
    (po : ℕ → ((ℕ → ℕ → ℕ) × (ℕ → ℕ → ℕ)))
    (features : List (List ℚ)) (coordinates : List (List ℤ))
    (batch_size : ℕ) :
    SparseCNN.forward ⟨c_in, vs, gb, [s0, s1, s2, s3]⟩ grid_shape b1 b2 b3 b4
      po features coordinates batch_size =
    (let cfg : Config := ⟨c_in, vs, gb, [s0, s1, s2, s3]⟩
     let x0 : SparseConvTensor :=
       ⟨features, coordinates, grid_shape, batch_size⟩
     let x1 := b1 x0
     let x2 := b2 x1
     let x3 := b3 x2
     ((do
        let g0 ← SparseCNN.to_global cfg s0 x0 (po 0).1 (po 0).2
        let g1 ← SparseCNN.to_global cfg s1 x1 (po 1).1 (po 1).2
        let g2 ← SparseCNN.to_global cfg s2 x2 (po 2).1 (po 2).2
        let g3 ← SparseCNN.to_global cfg s3 x3 (po 3).1 (po 3).2
        pure [g0, g1, g2, g3]),
      b4 x3)) := by
  rfl

/-- C4: the backbone is a cascade of four blocks, each a run of submanifold
convolution layers (each followed by batch normalization of its output width
and ReLU) ending in one strided sparse convolution: blocks 1 and 2 have two
submanifold layers, blocks 3 and 4 have three, with channel widths
`C_IN -> 16 -> 16 -> 32`, `32 -> 32 -> 32 -> 64`, `64 -> ... -> 64`,
`64 -> ... -> 64`, and every convolution bias-free. -/
theorem sparse_cnn_block_topology (c_in : ℕ) (w : ℕ → List ℚ) :
    SparseCNN.blocks c_in w =
    [[NNModule.subMConv3d c_in 16 (Size3.scalar 3) (Size3.scalar 3)
        (Size3.scalar 0) IndiceKey.subm0 false (w 0),
      NNModule.batchNorm1d (build_batchnorm 16), NNModule.reLU,
      NNModule.subMConv3d 16 16 (Size3.scalar 3) (Size3.scalar 3)
        (Size3.scalar 0) IndiceKey.subm0 false (w 1),
      NNModule.batchNorm1d (build_batchnorm 16), NNModule.reLU,
      NNModule.sparseConv3d 16 32 (Size3.scalar 3) (Size3.scalar 2)
        (Size3.scalar 1) false (w 2),
      NNModule.batchNorm1d (build_batchnorm 32), NNModule.reLU],
     [NNModule.subMConv3d 32 32 (Size3.scalar 3) (Size3.scalar 3)
        (Size3.scalar 0) IndiceKey.subm1 false (w 3),
      NNModule.batchNorm1d (build_batchnorm 32), NNModule.reLU,
      NNModule.subMConv3d 32 32 (Size3.scalar 3) (Size3.scalar 3)
        (Size3.scalar 0) IndiceKey.subm1 false (w 4),
      NNModule.batchNorm1d (build_batchnorm 32), NNModule.reLU,
      NNModule.sparseConv3d 32 64 (Size3.scalar 3) (Size3.scalar 2)
        (Size3.scalar 1) false (w 5),
      NNModule.batchNorm1d (build_batchnorm 64), NNModule.reLU],
     [NNModule.subMConv3d 64 64 (Size3.scalar 3) (Size3.scalar 3)
        (Size3.scalar 0) IndiceKey.subm2 false (w 6),
      NNModule.batchNorm1d (build_batchnorm 64), NNModule.reLU,
      NNModule.subMConv3d 64 64 (Size3.scalar 3) (Size3.scalar 3)
        (Size3.scalar 0) IndiceKey.subm2 false (w 7),
      NNModule.batchNorm1d (build_batchnorm 64), NNModule.reLU,
      NNModule.subMConv3d 64 64 (Size3.scalar 3) (Size3.scalar 3)
        (Size3.scalar 0) IndiceKey.subm2 false (w 8),
      NNModule.batchNorm1d (build_batchnorm 64), NNModule.reLU,
      NNModule.sparseConv3d 64 64 (Size3.scalar 3) (Size3.scalar 2)
        (Size3.triple 0 1 1) false (w 9),
      NNModule.batchNorm1d (build_batchnorm 64), NNModule.reLU],
     [NNModule.subMConv3d 64 64 (Size3.scalar 3) (Size3.scalar 3)
        (Size3.scalar 0) IndiceKey.subm3 false (w 10),
      NNModule.batchNorm1d (build_batchnorm 64), NNModule.reLU,
      NNModule.subMConv3d 64 64 (Size3.scalar 3) (Size3.scalar 3)
        (Size3.scalar 0) IndiceKey.subm3 false (w 11),
      NNModule.batchNorm1d (build_batchnorm 64), NNModule.reLU,
      NNModule.subMConv3d 64 64 (Size3.scalar 3) (Size3.scalar 3)
        (Size3.scalar 0) IndiceKey.subm3 false (w 12),
      NNModule.batchNorm1d (build_batchnorm 64), NNModule.reLU,
      NNModule.sparseConv3d 64 64 (Size3.triple 3 1 1) (Size3.triple 2 1 1)
        (Size3.scalar 0) false (w 13),
      NNModule.batchNorm1d (build_batchnorm 64), NNModule.reLU]] := rfl

/-- C7: every batch-normalization layer of the backbone is built by
`build_batchnorm` (with output widths 16, 16, 32, 32, 32 and 64), and
`build_batchnorm` uses `eps = 1e-3`, `momentum = 0.01` and leaves every
parameter with `requires_grad = True`. -/
theorem batchnorm_layers_spec (c_in : ℕ) (w : ℕ → List ℚ) :
    bnLayers (SparseCNN.modules c_in w) =
      List.map build_batchnorm
        [16, 16, 32, 32, 32, 64, 64, 64, 64, 64, 64, 64, 64, 64] ∧
    ∀ C : ℕ,
      (build_batchnorm C).eps = 1 / 1000 ∧
      (build_batchnorm C).momentum = 1 / 100 ∧
      (build_batchnorm C).weight_requires_grad = true ∧
      (build_batchnorm C).bias_requires_grad = true :=
  ⟨rfl, fun _ => ⟨rfl, rfl, rfl, rfl⟩⟩

/-- C8: `init_weights` only rewrites batch-normalization modules (weight to
ones, bias to zeros); its Kaiming branch matches only `nn.Conv2d`, and no
module of the constructed backbone is an `nn.Conv2d`, so every convolution
weight is left unchanged, whatever the Kaiming draw would have been. -/
theorem init_weights_frame (kaiming : NNModule → NNModule) (c_in : ℕ)
    (w : ℕ → List ℚ) :
    SparseCNN.init_weights kaiming (SparseCNN.modules c_in w) =
      (SparseCNN.modules c_in w).map (fun m =>
        match m with
        | NNModule.batchNorm1d bn =>
            NNModule.batchNorm1d (SparseCNN.batchnorm_init bn)
        | m => m) ∧
    (SparseCNN.modules c_in w).all (fun m => !m.isConv2d) = true ∧
    ∀ bn : BatchNorm1d,
      (SparseCNN.batchnorm_init bn).weight =
        List.replicate bn.num_features 1 ∧
      (SparseCNN.batchnorm_init bn).bias =
        List.replicate bn.num_features 0 :=
  ⟨rfl, rfl, fun _ => ⟨rfl, rfl⟩⟩

/-- C6: a layer built by `make_subm_layer` (submanifold convolution, batch
normalization, ReLU) preserves the set of active voxel indices of its input,
for every convolution kernel, batch-norm behaviour and input; hence the
consecutive layers sharing an `indice_key` in a block all operate on the
same index set. -/
theorem subm_layer_preserves_indices
    (subF : NNModule → SparseConvTensor → List (List ℚ))
    (convF : NNModule → SparseConvTensor → SparseConvTensor)
    (bnF : BatchNorm1d → List (List ℚ) → List (List ℚ))
    (C1 C2 C3 : ℕ) (s : Size3) (key : IndiceKey) (b : Bool)
    (w1 w2 : List ℚ) (t : SparseConvTensor) :
    (runModules subF convF bnF (make_subm_layer C1 C2 s key b w1) t).indices
      = t.indices ∧
    (runModules subF convF bnF
      (make_subm_layer C1 C2 s key b w1 ++ make_subm_layer C2 C3 s key b w2)
      t).indices = t.indices :=
  ⟨rfl, rfl⟩

/-- C2: for `batch_size > 1` and a sorted, in-range batch index covering
every batch (the well-definedness preconditions spelled out by the
safety claim), `pad_batch` succeeds and returns `batch_size` slices, each of
length `batch_count.max()`; slice `b` starts with the rows of `x` whose
batch index is `b`, unchanged and in order, and every row of slice `b`
(including the oversampled pad) is such a row. -/
theorem pad_batch_oversample_spec {α : Type u} [Inhabited α] (x : List α)
    (batch_index : List ℤ) (batch_size : ℕ) (pick : ℕ → ℕ → ℕ)
    (hbs : 1 < batch_size)
    (hlen : batch_index.length = x.length)
    (hsorted : batch_index.Pairwise (· ≤ ·))
    (hrange : ∀ v ∈ batch_index, 0 ≤ v ∧ v < (batch_size : ℤ))
    (hall : ∀ b : ℕ, b < batch_size → (b : ℤ) ∈ batch_index) :
    ∃ y : List (List α),
      SparseCNN.pad_batch x batch_index batch_size pick = some y ∧
      y.length = batch_size ∧
      (∀ s ∈ y, s.length = (batch_count batch_index batch_size).foldr max 0) ∧
      (∀ b : ℕ, b < batch_size →
        (y.getD b []).take ((batch_count batch_index batch_size).getD b 0) =
          ((x.zip batch_index).filter
            (fun p => decide (p.2 = (b : ℤ)))).map Prod.fst ∧
        ∀ r ∈ y.getD b [],
          r ∈ ((x.zip batch_index).filter
            (fun p => decide (p.2 = (b : ℤ)))).map Prod.fst) := by
  have hnn : ∀ v ∈ batch_index, 0 ≤ v := fun v hv => (hrange v hv).1
  have hbclen : (batch_count batch_index batch_size).length = batch_size :=
    batch_count_length _ _
  have hchunk : ∀ b : ℕ, b < batch_size →
      (splitByCounts x (batch_count batch_index batch_size)).getD b [] =
        ((x.zip batch_index).filter
          (fun p => decide (p.2 = (b : ℤ)))).map Prod.fst := by
    intro b hb
    rw [splitByCounts_getD x _ b (by rw [hbclen]; exact hb),
      batch_count_sum_take _ _ hnn b (le_of_lt hb),
      batch_count_getD _ _ b hb]
    exact (sorted_chunk_eq_filter x batch_index (b : ℤ) hsorted hlen).symm
  have hchunk_len : ∀ b : ℕ, b < batch_size →
      ((splitByCounts x (batch_count batch_index batch_size)).getD
        b []).length = countEq batch_index (b : ℤ) := by
    intro b hb
    rw [splitByCounts_getD x _ b (by rw [hbclen]; exact hb),
      batch_count_sum_take _ _ hnn b (le_of_lt hb),
      batch_count_getD _ _ b hb,
      List.length_take, List.length_drop]
    have h1 := countLt_add_countEq_le batch_index (b : ℤ)
    rw [hlen] at h1
    omega
  have hchunk_pos : ∀ b : ℕ, b < batch_size →
      (splitByCounts x (batch_count batch_index batch_size)).getD b []
        ≠ [] := by
    intro b hb hnil
    have hcnt : 0 < countEq batch_index (b : ℤ) := by
      rw [countEq, List.countP_pos_iff]
      exact ⟨(b : ℤ), hall b hb, by simp⟩
    have hcl := hchunk_len b hb
    rw [hnil] at hcl
    simp only [List.length_nil] at hcl
    omega
  have hf : ∀ b ∈ List.range batch_size,
      (random_choice
        ((splitByCounts x (batch_count batch_index batch_size)).getD b [])
        (((batch_count batch_index batch_size).map
          (fun c => (batch_count batch_index batch_size).foldr max 0 - c)).getD
            b 0)
        (pick b)).map
        (fun p =>
          (splitByCounts x (batch_count batch_index batch_size)).getD b []
            ++ p) =
      some (paddedChunk x batch_index batch_size pick b) := by
    intro b hb
    have hb' : b < batch_size := List.mem_range.mp hb
    rw [random_choice_of_ne_nil _ _ _ (hchunk_pos b hb'),
      map_sub_getD _ _ b (by rw [hbclen]; exact hb')]
    rfl
  refine ⟨(List.range batch_size).map
    (paddedChunk x batch_index batch_size pick), ?_, ?_, ?_, ?_⟩
  · simp only [SparseCNN.pad_batch]
    rw [if_neg (by omega : ¬batch_size = 1)]
    exact mapM_option_eq_some_map _ _ _ hf
  · rw [List.length_map, List.length_range]
  · intro s hs
    rcases List.mem_map.mp hs with ⟨b, hbmem, rfl⟩
    have hb' : b < batch_size := List.mem_range.mp hbmem
    rw [paddedChunk, List.length_append, List.length_map, List.length_range,
      hchunk_len b hb']
    have h2 : (batch_count batch_index batch_size).getD b 0 =
        countEq batch_index (b : ℤ) := batch_count_getD _ _ b hb'
    have h3 : (batch_count batch_index batch_size).getD b 0 ≤
        (batch_count batch_index batch_size).foldr max 0 :=
      mem_le_foldr_max _ _ (getD_mem _ b 0 (by rw [hbclen]; exact hb'))
    omega
  · intro b hb
    have hyb : ((List.range batch_size).map
        (paddedChunk x batch_index batch_size pick)).getD b [] =
        paddedChunk x batch_index batch_size pick b := by
      rw [List.getD_eq_getElem _ _
        (by rw [List.length_map, List.length_range]; exact hb),
        List.getElem_map, List.getElem_range]
    constructor
    · rw [hyb, paddedChunk, batch_count_getD _ _ b hb, ← hchunk b hb,
        ← hchunk_len b hb, List.take_left]
    · intro r hr
      rw [hyb, paddedChunk] at hr
      rw [← hchunk b hb]
      rcases List.mem_append.mp hr with h | h
      · exact h
      · rcases List.mem_map.mp h with ⟨i, _, rfl⟩
        exact getD_mem _ _ _
          (Nat.mod_lt _ (List.length_pos.mpr (hchunk_pos b hb)))

/-- C9: for `batch_size > 1`, a sorted and in-range batch index with at
least one row, and some batch id `b < batch_size` that never occurs,
`pad_batch` fails: the chunk of batch `b` is empty while its pad amount is
the positive maximum count, so its pad is drawn from an empty population
(`torch.randint` with an empty range). -/
theorem pad_batch_missing_batch_none {α : Type u} [Inhabited α] (x : List α)
    (batch_index : List ℤ) (batch_size : ℕ) (pick : ℕ → ℕ → ℕ)
    (hbs : 1 < batch_size)
    (hsorted : batch_index.Pairwise (· ≤ ·))
    (hrange : ∀ v ∈ batch_index, 0 ≤ v ∧ v < (batch_size : ℤ))
    (hne : batch_index ≠ [])
    (b : ℕ) (hb : b < batch_size) (hmiss : (b : ℤ) ∉ batch_index) :
    SparseCNN.pad_batch x batch_index batch_size pick = none := by
  have hcEq0 : countEq batch_index (b : ℤ) = 0 := by
    rw [countEq, List.countP_eq_zero]
    intro u hu
    simp only [decide_eq_true_eq]
    intro hub
    exact hmiss (hub ▸ hu)
  have hbclen : (batch_count batch_index batch_size).length = batch_size :=
    batch_count_length _ _
  have hchunknil :
      (splitByCounts x (batch_count batch_index batch_size)).getD b []
        = [] := by
    rw [splitByCounts_getD x _ b (by rw [hbclen]; exact hb),
      batch_count_getD _ _ b hb, hcEq0, List.take_zero]
  obtain ⟨v, hv⟩ := List.exists_mem_of_ne_nil batch_index hne
  obtain ⟨hv0, hvlt⟩ := hrange v hv
  have hvnat : ((v.toNat : ℕ) : ℤ) = v := Int.toNat_of_nonneg hv0
  have hvbs : v.toNat < batch_size := by omega
  have hposv : 0 < countEq batch_index ((v.toNat : ℕ) : ℤ) := by
    rw [hvnat, countEq, List.countP_pos_iff]
    exact ⟨v, hv, by simp⟩
  have hMpos : 0 < (batch_count batch_index batch_size).foldr max 0 := by
    have h1 : (batch_count batch_index batch_size).getD v.toNat 0 =
        countEq batch_index ((v.toNat : ℕ) : ℤ) :=
      batch_count_getD _ _ _ hvbs
    have h2 := mem_le_foldr_max _ _
      (getD_mem (batch_count batch_index batch_size) v.toNat 0
        (by rw [hbclen]; exact hvbs))
    omega
  simp only [SparseCNN.pad_batch]
  rw [if_neg (by omega : ¬batch_size = 1)]
  apply mapM_option_eq_none _ _ b (List.mem_range.mpr hb)
  rw [compute_pad_amounts_fst, compute_pad_amounts_snd, hchunknil,
    map_sub_getD _ _ b (by rw [hbclen]; exact hb),
    batch_count_getD _ _ b hb, hcEq0,
    random_choice_none _ _ (by omega)]
  rfl

/-- C5: for a feature tensor of shape `(N, K, C)` and a positive occupancy
vector of length `N`, `VoxelFeatureExtractor.forward` returns `N` rows, and
row `i` has, at each channel `c < C`, the sum of `feature[i]` over the `K`
axis divided by `occupancy[i]` — the mean of the points within the voxel. -/
theorem vfe_forward_mean (C K : ℕ) (feature : List (List (List ℚ)))
    (occupancy : List ℚ)
    (hN : occupancy.length = feature.length)
    (hK : ∀ rows ∈ feature, rows.length = K)
    (hC : ∀ rows ∈ feature, ∀ r ∈ rows, r.length = C)
    (hpos : ∀ o ∈ occupancy, 0 < o) :
    (VoxelFeatureExtractor.forward C feature occupancy).length =
      feature.length ∧
    ∀ i : ℕ, i < feature.length →
      (VoxelFeatureExtractor.forward C feature occupancy).getD i [] =
        (List.range C).map (fun c =>
          ((feature.getD i []).map (fun r => r.getD c 0)).sum /
            occupancy.getD i 0) := by
  constructor
  · rw [VoxelFeatureExtractor.forward, List.length_zipWith, hN, min_self]
  · intro i hi
    have hiocc : i < occupancy.length := by rw [hN]; exact hi
    rw [VoxelFeatureExtractor.forward]
    rw [List.getD_eq_getElem _ _
      (by rw [List.length_zipWith, hN, min_self]; exact hi)]
    rw [List.getElem_zipWith]
    rw [foldl_zipWith_add C (feature[i]) (List.replicate C 0)
      (List.length_replicate _ _)
      (fun r hr => hC (feature[i]) (List.getElem_mem hi) r hr)]
    rw [List.map_map]
    apply List.map_congr_left
    intro c hc
    simp only [Function.comp_apply]
    rw [getD_replicate_zero, zero_add,
      List.getD_eq_getElem feature [] hi,
      List.getD_eq_getElem occupancy 0 hiocc]

/-- Counterexample to the unconditional reading of C2: for the sorted batch
index `[0]` with `batch_size = 2` (batch 1 never occurs), `pad_batch` fails
— the pad of batch 1 is drawn from an empty chunk — instead of returning a
stacked tensor. -/
theorem pad_batch_unconditional_counterexample :
    List.Pairwise (· ≤ ·) ([0] : List ℤ) ∧
    SparseCNN.pad_batch [[(10 : ℚ)]] [0] 2 (fun _ _ => 0) = none :=
  ⟨by decide, by decide⟩

/-! ## Witnesses -/

/-- Witness of the C2 theorem at a concrete input: three rows, two batches,
batch index `[0, 1, 1]`, all hypotheses discharged by computation. -/
theorem pad_batch_oversample_spec_witness :
    ∃ y : List (List ℚ),
      SparseCNN.pad_batch [(10 : ℚ), 20, 30] [0, 1, 1] 2 (fun _ _ => 0) =
        some y ∧
      y.length = 2 ∧
      (∀ s ∈ y, s.length = (batch_count [0, 1, 1] 2).foldr max 0) ∧
      (∀ b : ℕ, b < 2 →
        (y.getD b []).take ((batch_count [0, 1, 1] 2).getD b 0) =
          (([(10 : ℚ), 20, 30].zip [0, 1, 1]).filter
            (fun p => decide (p.2 = (b : ℤ)))).map Prod.fst ∧
        ∀ r ∈ y.getD b [],
          r ∈ (([(10 : ℚ), 20, 30].zip [0, 1, 1]).filter
            (fun p => decide (p.2 = (b : ℤ)))).map Prod.fst) :=
  pad_batch_oversample_spec [(10 : ℚ), 20, 30] [0, 1, 1] 2 (fun _ _ => 0)
    (by omega) (by decide) (by decide) (by decide) (by decide)

/-- Witness of the C9 theorem at a concrete input: one row in batch 0,
`batch_size = 2`, batch 1 empty — `pad_batch` fails. -/
theorem pad_batch_missing_batch_none_witness :
    SparseCNN.pad_batch [(10 : ℚ)] [0] 2 (fun _ _ => 0) = none :=
  pad_batch_missing_batch_none [(10 : ℚ)] [0] 2 (fun _ _ => 0) (by omega)
    (by decide) (by decide) (by decide) 1 (by omega) (by decide)

/-- Witness of the C5 theorem at a concrete input: one voxel with two
points of two channels and occupancy 2. -/
theorem vfe_forward_mean_witness :
    (VoxelFeatureExtractor.forward 2 [[[(1 : ℚ), 2], [3, 4]]] [2]).length =
      [[[(1 : ℚ), 2], [3, 4]]].length ∧
    ∀ i : ℕ, i < [[[(1 : ℚ), 2], [3, 4]]].length →
      (VoxelFeatureExtractor.forward 2 [[[(1 : ℚ), 2], [3, 4]]] [2]).getD
        i [] =
        (List.range 2).map (fun c =>
          (([[[(1 : ℚ), 2], [3, 4]]].getD i []).map
            (fun r => r.getD c 0)).sum / [(2 : ℚ)].getD i 0) :=
  vfe_forward_mean 2 2 [[[(1 : ℚ), 2], [3, 4]]] [2] (by decide) (by decide)
    (by decide) (by decide)

end PVRCNN
